import Mathlib

/-!
Shallow embedding of the bill line-item extraction engine
(`app/schemas.py`, `app/line_item_extractor_OLD.py`, `app/vision_extractor.py`,
`app/llm_extractor.py`).  Text is modelled as `List Char`, Python floats as
exact rationals, and fallible operations as `Option`.  Scanning functions that
walk a string use an explicit fuel argument set to the string length plus one,
which is always sufficient because every step consumes at least one character.
-/

namespace BillSpec

/-- Text is a list of characters. -/
abbrev Str := List Char

/-- Python whitespace characters stripped by `str.strip()`. -/
def pyWs (c : Char) : Bool :=
  c = ' ' || c = '\t' || c = '\n' || c = '\r' || c = '\x0b' || c = '\x0c'

/-- Drop characters satisfying `p` from the end of a string. -/
def dropEndWhile (p : Char → Bool) (s : Str) : Str :=
  (s.reverse.dropWhile p).reverse

/-- Strip characters satisfying `p` from both ends, as Python `str.strip`. -/
def stripWhile (p : Char → Bool) (s : Str) : Str :=
  dropEndWhile p (s.dropWhile p)

/-- Python `str.strip()` with no argument: strip whitespace. -/
def pyStrip (s : Str) : Str := stripWhile pyWs s

/-- Whether `pat` is an initial segment of `s`. -/
def startsWith : Str → Str → Bool
  | [], _ => true
  | _ :: _, [] => false
  | p :: ps, c :: cs => p = c && startsWith ps cs

/-- Whether `pat` occurs as a contiguous substring of `s`; models the Python
test `pat in s`. -/
def containsSub (pat : Str) : Str → Bool
  | [] => startsWith pat []
  | c :: cs => startsWith pat (c :: cs) || containsSub pat cs

/-- ASCII lowercasing, as Python `str.lower` on ASCII text. -/
def lowerStr (s : Str) : Str := s.map Char.toLower

/-- Fuel-driven worker for `removeAll`: delete every non-overlapping,
left-to-right occurrence of `pat`. -/
def removeAllAux (pat : Str) : Nat → Str → Str
  | 0, s => s
  | _ + 1, [] => []
  | fuel + 1, c :: cs =>
    if pat ≠ [] ∧ startsWith pat (c :: cs) then
      removeAllAux pat fuel ((c :: cs).drop pat.length)
    else
      c :: removeAllAux pat fuel cs

/-- Python `s.replace(pat, "")`: remove every occurrence of `pat` in `s`. -/
def removeAll (pat : Str) (s : Str) : Str :=
  removeAllAux pat (s.length + 1) s

/-- Value of a digit string read in base ten. -/
def digitsToNat (s : Str) : Nat :=
  s.foldl (fun acc c => acc * 10 + (c.toNat - '0'.toNat)) 0

/-- Exponent suffix of a Python float literal: empty, or `e`/`E`, an optional
sign, and at least one digit.  Returns the scaled mantissa. -/
def applyExp (m : ℚ) : Str → Option ℚ
  | [] => some m
  | e :: r =>
    if e = 'e' ∨ e = 'E' then
      let signAndRest : ℤ × Str :=
        match r with
        | '+' :: t => (1, t)
        | '-' :: t => (-1, t)
        | t => (1, t)
      let ds := signAndRest.2.takeWhile Char.isDigit
      if ds ≠ [] ∧ signAndRest.2.dropWhile Char.isDigit = [] then
        some (m * (10 : ℚ) ^ (signAndRest.1 * (digitsToNat ds : ℤ)))
      else none
    else none

/-- Unsigned decimal literal: digits, an optional point with further digits,
and an optional exponent; at least one digit must be present. -/
def parseUnsigned (s : Str) : Option ℚ :=
  let ip := s.takeWhile Char.isDigit
  let rest := s.dropWhile Char.isDigit
  match rest with
  | '.' :: r =>
    let fp := r.takeWhile Char.isDigit
    let rest2 := r.dropWhile Char.isDigit
    if ip = [] ∧ fp = [] then none
    else
      applyExp ((digitsToNat ip : ℚ) + (digitsToNat fp : ℚ) / (10 : ℚ) ^ fp.length) rest2
  | _ => if ip = [] then none else applyExp (digitsToNat ip : ℚ) rest

/-- Model of Python `float(s)` on decimal literals: optional sign, then an
unsigned decimal with optional fraction and exponent.  Parse failure is
`none`, matching the `ValueError` path of the source. -/
def pyFloat : Str → Option ℚ
  | '+' :: t => parseUnsigned t
  | '-' :: t => (parseUnsigned t).map Neg.neg
  | t => parseUnsigned t

/-! ## Data model (`app/schemas.py`) -/

/-- Page categories of `PageTypeEnum`; the `UNKNOWN` member of the source
carries the same value as `BILL_DETAIL` and is not a distinct state. -/
inductive PageTypeEnum where
  | BILL_DETAIL
  | FINAL_BILL
  | PHARMACY
deriving DecidableEq, Repr

/-- One billed entry, `BillItem` of `app/schemas.py`. -/
structure BillItem where
  item_name : Str
  item_amount : ℚ
  item_rate : ℚ
  item_quantity : ℚ
deriving DecidableEq, Repr

/-- One extracted page, `PageLineItems` of `app/schemas.py`, with the page
type already normalised by its validator. -/
structure PageLineItems where
  page_no : Str
  page_type : PageTypeEnum
  bill_items : List BillItem
deriving DecidableEq, Repr

/-- Scalar inputs accepted by the `clean_floats` validator: a float, an int,
a string, or anything else (mapped to zero by the final catch-all). -/
inductive PyScalar where
  | ofFloat : ℚ → PyScalar
  | ofInt : ℤ → PyScalar
  | ofStr : Str → PyScalar
  | other : PyScalar
deriving DecidableEq

/-- Placeholder strings recognised by `clean_floats` after lowercasing. -/
def placeholders : List Str :=
  ["nan".toList, "null".toList, "n/a".toList, "none".toList, "".toList]

/-- Residual string of `clean_floats` on a string input: commas, the literal
`Rs`, the dollar sign and the byte sequence that stands for the rupee sign in
the source file (the mojibake characters `â`, `‚`, `¹`) removed, then
whitespace stripped. -/
def cleanResidue (v : Str) : Str :=
  pyStrip (removeAll "â‚¹".toList (removeAll "$".toList
    (removeAll "Rs".toList (removeAll ",".toList v))))

/-- The `BillItem.clean_floats` field validator of `app/schemas.py`. -/
def clean_floats : PyScalar → ℚ
  | .ofFloat q => q
  | .ofInt n => (n : ℚ)
  | .ofStr v =>
    let clean_str := cleanResidue v
    if clean_str = [] ∨ lowerStr clean_str ∈ placeholders then 0
    else
      match pyFloat clean_str with
      | some q => q
      | none => 0
  | .other => 0

/-- The `PageLineItems.validate_page_type` validator of `app/schemas.py` on
string input. -/
def validate_page_type (v : Str) : PageTypeEnum :=
  if containsSub "pharmacy".toList (lowerStr v) then .PHARMACY
  else if containsSub "final".toList (lowerStr v) ||
      containsSub "summary".toList (lowerStr v) then .FINAL_BILL
  else .BILL_DETAIL

/-! ## Heuristic line parser (`app/line_item_extractor_OLD.py`) -/

/-- Word characters of the regex class `\w` on ASCII text. -/
def isWordChar (c : Char) : Bool := c.isAlphanum || c = '_'

/-- Separator class `[/.-]` of the date pattern. -/
def isSepChar (c : Char) : Bool := c = '/' || c = '.' || c = '-'

/-- Length of the leading digit run of a string. -/
def countDigits (s : Str) : Nat := (s.takeWhile Char.isDigit).length

/-- Match of the date regex at the head of `l`,
given the previous character for the leading word boundary; returns the
matched length.  The bounded repetitions with their backtracking collapse to
conditions on the maximal digit runs, because a shorter greedy choice always
leaves a digit in front of a separator or boundary position. -/
def matchDate (prev : Option Char) (l : Str) : Option Nat :=
  if (match prev with | none => true | some c => !isWordChar c) then
    let k1 := countDigits l
    if 1 ≤ k1 ∧ k1 ≤ 2 then
      match l.drop k1 with
      | c1 :: r1 =>
        if isSepChar c1 then
          let k2 := countDigits r1
          if 1 ≤ k2 ∧ k2 ≤ 2 then
            match r1.drop k2 with
            | c2 :: r2 =>
              if isSepChar c2 then
                let k3 := countDigits r2
                if 2 ≤ k3 ∧ k3 ≤ 4 then
                  match r2.drop k3 with
                  | [] => some (k1 + 1 + k2 + 1 + k3)
                  | c3 :: _ =>
                    if isWordChar c3 then none else some (k1 + 1 + k2 + 1 + k3)
                else none
              else none
            | [] => none
          else none
        else none
      | [] => none
    else none
  else none

/-- Fuel-driven worker for `removeDates`; the previous character of the
original string is carried for word-boundary tests. -/
def removeDatesAux : Nat → Option Char → Str → Str
  | 0, _, s => s
  | _ + 1, _, [] => []
  | fuel + 1, prev, c :: cs =>
    match matchDate prev (c :: cs) with
    | some n => removeDatesAux fuel (((c :: cs).take n).getLast?) ((c :: cs).drop n)
    | none => c :: removeDatesAux fuel (some c) cs

/-- Deletion of every date-pattern match, as the substitution on line 46 of
the source. -/
def removeDates (s : Str) : Str := removeDatesAux (s.length + 1) none s

/-- Fuel-driven worker for `extractNums`: left-to-right greedy matches of the
number pattern of digits with an optional fraction. -/
def extractNumsAux : Nat → Str → List Str
  | 0, _ => []
  | _ + 1, [] => []
  | fuel + 1, c :: cs =>
    if c.isDigit then
      let ds := (c :: cs).takeWhile Char.isDigit
      let rest := (c :: cs).dropWhile Char.isDigit
      match rest with
      | '.' :: r =>
        if r.takeWhile Char.isDigit ≠ [] then
          (ds ++ '.' :: r.takeWhile Char.isDigit) ::
            extractNumsAux fuel (r.dropWhile Char.isDigit)
        else ds :: extractNumsAux fuel rest
      | _ => ds :: extractNumsAux fuel rest
    else extractNumsAux fuel cs

/-- All matches of the number pattern in `s`, in order. -/
def extractNums (s : Str) : List Str := extractNumsAux (s.length + 1) s

/-- Conversion of one raw number token: parse it as a float, then drop it when
it is an integer between 1900 and 2100 written without a decimal point (the
year filter of lines 54-56 of the source). -/
def keepNumber (x : Str) : Option ℚ :=
  match pyFloat x with
  | none => none
  | some v =>
    if 1900 ≤ v ∧ v ≤ 2100 ∧ v.den = 1 ∧ containsSub ".".toList x = false then none
    else some v

/-- Numeric values of a line after date removal, year filtering applied. -/
def extractNumbers (s : Str) : List ℚ := (extractNums s).filterMap keepNumber

/-- Tolerance `max(1.0, 0.05 * cand_amount)` of the multiplicative match. -/
def tol (a : ℚ) : ℚ := max 1 (5 / 100 * a)

/-- Quantity, rate and amount resolution when a third-from-last candidate
exists (lines 87-122 of the source).  Returns `(quantity, rate, amount)`. -/
def threeCase (c3 c2 a : ℚ) : ℚ × ℚ × ℚ :=
  if |c3 * c2 - a| < tol a then (c3, c2, a)
  else if |c2 * c3 - a| < tol a then (c2, c3, a)
  else if c3 ≤ 100 ∧ c3.den = 1 then (c3, if 0 < c3 then a / c3 else a, a)
  else (1, a, a)

/-- Quantity, rate and amount resolution with exactly two numbers
(lines 123-139 of the source).  Returns `(quantity, rate, amount)`. -/
def twoCase (c2 a : ℚ) : ℚ × ℚ × ℚ :=
  if c2 ≤ 50 ∧ c2.den = 1 then (c2, if 0 < c2 then a / c2 else a, a)
  else if |c2 - a| < 1 / 10 then (1, c2, a)
  else (1, a, a)

/-- Fallback resolution as claim C2 words it, for comparison with the source
functions `threeCase` and `twoCase`: the second-to-last token becomes the
quantity when integral and at most 100 (50 with two tokens), else the rate
when within 0.1 of the amount, else quantity 1 and rate equal to amount. -/
def fallbackPerSpec (threeTokens : Bool) (c2 a : ℚ) : ℚ × ℚ × ℚ :=
  if c2 ≤ (if threeTokens then 100 else 50) ∧ c2.den = 1 then (c2, a / c2, a)
  else if |c2 - a| < 1 / 10 then (1, c2, a)
  else (1, a, a)

/-- Resolution on the reversed number list, so the last, second-to-last and
third-from-last tokens are the leading entries. -/
def computeQRArev : List ℚ → Option (ℚ × ℚ × ℚ)
  | [] => none
  | [a] => some (1, a, a)
  | [a, c2] => some (twoCase c2 a)
  | a :: c2 :: c3 :: _ => some (threeCase c3 c2 a)

/-- Resolution of `(quantity, rate, amount)` from the extracted numbers,
`none` when no number survived (lines 61-139 of the source). -/
def computeQRA (ns : List ℚ) : Option (ℚ × ℚ × ℚ) := computeQRArev ns.reverse

/-- Characters stripped around the raw name, `strip(" :-\t|")`. -/
def nameStripSet (c : Char) : Bool :=
  c = ' ' || c = ':' || c = '-' || c = '\t' || c = '|'

/-- Removal of a leading serial-number prefix, the substitution on line 160
of the source. -/
def stripSerial (s : Str) : Str :=
  match s.takeWhile Char.isDigit with
  | [] => s
  | _ :: _ =>
    let r1 := (s.dropWhile Char.isDigit).dropWhile pyWs
    let r2 :=
      match r1 with
      | c :: rest => if c = '.' ∨ c = '-' ∨ c = ')' then rest else r1
      | [] => r1
    r2.dropWhile pyWs

/-- Item-name extraction and cleaning (lines 148-163 of the source): the text
before the first digit, stripped of surrounding punctuation, serial prefixes
and artifact substrings. -/
def cleanName (line : Str) : Str :=
  let namePart := line.takeWhile (fun c => !c.isDigit)
  pyStrip (removeAll "RR".toList (removeAll "$G".toList
    (stripSerial (stripWhile nameStripSet namePart))))

/-- Noise keywords of `is_header_or_meta`. -/
def headerKeywords : List Str :=
  ["invoice".toList, "bill no".toList, "bill number".toList, "date:".toList,
   "time:".toList, "uhid".toList, "ip no".toList, "ward".toList, "bed".toList,
   "age".toList, "sex".toList, "doctor".toList, "consultant".toList,
   "total".toList, "sub total".toList, "subtotal".toList, "grand total".toList,
   "net amount".toList, "amount in words".toList]

/-- The `is_header_or_meta` filter of the source. -/
def is_header_or_meta (line : Str) : Bool :=
  headerKeywords.any (fun k => containsSub k (lowerStr line))

/-- Processing of one raw text line, `none` when the line is filtered or
rejected; the body of the inner loop of `extract_pagewise_line_items`. -/
def parseLine (line : Str) : Option BillItem :=
  if line = [] ∨ pyStrip line = [] then none
  else if is_header_or_meta line then none
  else
    let stripped_line := pyStrip line
    if !stripped_line.any Char.isDigit then none
    else if stripped_line.length < 5 then none
    else
      match computeQRA (extractNumbers (removeDates line)) with
      | none => none
      | some (q, r, a) =>
        if ¬(0 < q ∧ q ≤ 1000) then none
        else if a ≤ 0 then none
        else
          let name := cleanName line
          if name = [] ∨ name.length < 3 then none
          else some ⟨name, a, r, q⟩

/-- Assembly of one output page: 1-based page number rendered in decimal,
the fixed label run through the page-type validator, and the items of the
kept lines. -/
def processPage (idx : Nat) (lines : List Str) : PageLineItems :=
  { page_no := Nat.toDigits 10 idx,
    page_type := validate_page_type "Bill Detail".toList,
    bill_items := lines.filterMap parseLine }

/-- Worker enumerating pages from a given index. -/
def extractFrom (idx : Nat) : List (List Str) → List PageLineItems
  | [] => []
  | pg :: rest => processPage idx pg :: extractFrom (idx + 1) rest

/-- The `extract_pagewise_line_items` entry point: pages enumerated from 1. -/
def extract_pagewise_line_items (pages : List (List Str)) : List PageLineItems :=
  extractFrom 1 pages

/-! ## Repair pass and aggregation (`app/vision_extractor.py`,
`app/llm_extractor.py`) -/

/-- Rounding to the nearest integer with ties to even, as the Python builtin
`round` on exact values. -/
def roundHalfEven (x : ℚ) : ℤ :=
  if x - ⌊x⌋ < 1 / 2 then ⌊x⌋
  else if 1 / 2 < x - ⌊x⌋ then ⌊x⌋ + 1
  else if 2 ∣ ⌊x⌋ then ⌊x⌋ else ⌊x⌋ + 1

/-- Python `round(x, 2)` on exact values. -/
def round2 (x : ℚ) : ℚ := (roundHalfEven (100 * x) : ℚ) / 100

/-- Repair of one item, the loop body of `repair_bill_items`
(lines 25-41 of `app/vision_extractor.py`). -/
def repairItem (it : BillItem) : BillItem :=
  if it.item_amount = 0 ∧ 0 < it.item_rate ∧ 0 < it.item_quantity then
    { it with item_amount := round2 (it.item_rate * it.item_quantity) }
  else if it.item_rate = 0 ∧ 0 < it.item_amount ∧ 0 < it.item_quantity then
    { it with item_rate := round2 (it.item_amount / it.item_quantity) }
  else if it.item_quantity = 0 ∧ 0 < it.item_amount ∧ 0 < it.item_rate then
    if |it.item_amount - it.item_rate| < 1 / 10 then
      { it with item_quantity := 1 }
    else
      { it with item_quantity := round2 (it.item_amount / it.item_rate) }
  else it

/-- The `repair_bill_items` pass over every page and item. -/
def repair_bill_items (pages : List PageLineItems) : List PageLineItems :=
  pages.map (fun p => { p with bill_items := p.bill_items.map repairItem })

/-- Sort key of the aggregation step: the page number read as an integer when
it is a nonempty digit string, otherwise 0. -/
def pageKey (p : PageLineItems) : Nat :=
  if p.page_no ≠ [] ∧ p.page_no.all Char.isDigit then digitsToNat p.page_no else 0

/-- Stable insertion before the first strictly greater key. -/
def insertPage (x : PageLineItems) : List PageLineItems → List PageLineItems
  | [] => [x]
  | y :: ys => if pageKey y < pageKey x then y :: insertPage x ys else x :: y :: ys

/-- Stable ascending sort by `pageKey`, the `list.sort` call of the
aggregation step (a stable sort is extensionally determined by its key, so
insertion sort is a faithful model of the builtin sort). -/
def sortPages : List PageLineItems → List PageLineItems
  | [] => []
  | x :: xs => insertPage x (sortPages xs)

/-! ## Theorems

The rational-number operations of the library are irreducible by default;
inside this section they are made semireducible so that concrete runs of the
embedded functions evaluate under `decide`. -/

section

attribute [local semireducible] Rat.add Rat.mul Rat.inv Rat.sub Rat.ofScientific

/-- C4: the numeric normalizer is total over numbers and strings, strips
currency noise, maps placeholders and unparsable residues to zero, and sends
the dollar example to 1200, the placeholder example to 0 and the integer 2 to
2.  The rupee sign itself is NOT stripped by the source: its replace call
targets the mojibake characters, so a rupee-prefixed value degrades to 0;
`C4_rupee_bug` records that failing input. -/
theorem C4_clean_floats :
    (∀ s : Str, cleanResidue s = [] ∨ lowerStr (cleanResidue s) ∈ placeholders →
      clean_floats (.ofStr s) = 0) ∧
    (∀ s : Str, pyFloat (cleanResidue s) = none → clean_floats (.ofStr s) = 0) ∧
    (∀ (s : Str) (q : ℚ), pyFloat (cleanResidue s) = some q →
      clean_floats (.ofStr s) = 0 ∨ clean_floats (.ofStr s) = q) ∧
    clean_floats (.ofStr "$1,200.00".toList) = 1200 ∧
    clean_floats (.ofStr "N/A".toList) = 0 ∧
    clean_floats (.ofInt 2) = 2 ∧
    clean_floats (.ofStr "₹500".toList) = 0 := by
  refine ⟨?_, ?_, ?_, by decide, by decide, by norm_num [clean_floats], by decide⟩

  · intro s h
    simp only [clean_floats, if_pos h]
  · intro s h
    by_cases hp : cleanResidue s = [] ∨ lowerStr (cleanResidue s) ∈ placeholders
    · simp only [clean_floats, if_pos hp]
    · simp only [clean_floats, if_neg hp, h]
  · intro s q h
    by_cases hp : cleanResidue s = [] ∨ lowerStr (cleanResidue s) ∈ placeholders
    · exact Or.inl (by simp only [clean_floats, if_pos hp])
    · exact Or.inr (by simp only [clean_floats, if_neg hp, h])

/-- C4 witness: the general clauses of `C4_clean_floats` applied at concrete
strings. -/
theorem C4_clean_floats_witness :
    clean_floats (.ofStr "null".toList) = 0 ∧
    clean_floats (.ofStr "abc".toList) = 0 := by
  constructor
  · exact C4_clean_floats.1 "null".toList (by decide)
  · exact C4_clean_floats.2.1 "abc".toList (by decide)

/-- C8: page-type normalization is total over strings, case-insensitive and
substring-based, pharmacy takes precedence, everything unrecognized falls to
Bill Detail, and the three example labels map as stated. -/
theorem C8_page_type :
    (∀ v : Str, containsSub "pharmacy".toList (lowerStr v) = true →
      validate_page_type v = .PHARMACY) ∧
    (∀ v : Str, containsSub "pharmacy".toList (lowerStr v) = false →
      (containsSub "final".toList (lowerStr v) = true ∨
       containsSub "summary".toList (lowerStr v) = true) →
      validate_page_type v = .FINAL_BILL) ∧
    (∀ v : Str, containsSub "pharmacy".toList (lowerStr v) = false →
      containsSub "final".toList (lowerStr v) = false →
      containsSub "summary".toList (lowerStr v) = false →
      validate_page_type v = .BILL_DETAIL) ∧
    validate_page_type "PHARMACY ITEMS".toList = .PHARMACY ∧
    validate_page_type "Grand Summary".toList = .FINAL_BILL ∧
    validate_page_type "Room Charges".toList = .BILL_DETAIL ∧
    validate_page_type "".toList = .BILL_DETAIL := by
  refine ⟨?_, ?_, ?_, by decide, by decide, by decide, by decide⟩
  · intro v h
    simp_all [validate_page_type]
  · intro v h hf
    rcases hf with hf | hf <;> simp_all [validate_page_type]
  · intro v h hf hs
    simp_all [validate_page_type]

/-- C8 witness: the general clauses of `C8_page_type` applied at concrete
labels. -/
theorem C8_page_type_witness :
    validate_page_type "ward pharmacy".toList = .PHARMACY ∧
    validate_page_type "FINAL".toList = .FINAL_BILL ∧
    validate_page_type "garbage".toList = .BILL_DETAIL := by
  refine ⟨?_, ?_, ?_⟩
  · exact C8_page_type.1 "ward pharmacy".toList (by decide)
  · exact C8_page_type.2.1 "FINAL".toList (by decide) (Or.inl (by decide))
  · exact C8_page_type.2.2.1 "garbage".toList (by decide) (by decide) (by decide)

/-- Concrete evaluation used by the C5 round-trip clause. -/
theorem round2_fifty_times_two : round2 ((50 : ℚ) * 2) = 100 := by decide

end

/-- Idempotence of the per-item repair: every branch either leaves the item
unchanged or recomputes the same field from the two untouched fields, so a
second pass reproduces the first. -/
theorem repairItem_idem (it : BillItem) : repairItem (repairItem it) = repairItem it := by
  rcases it with ⟨n, a, r, q⟩
  unfold repairItem
  dsimp only
  split_ifs <;> simp_all

/-- C5: the repair pass computes the missing amount in the stated round trip,
and it is idempotent, both per item and over whole documents. -/
theorem C5_repair_idempotent :
    (∀ n : Str, repairItem ⟨n, 0, 50, 2⟩ = ⟨n, 100, 50, 2⟩) ∧
    (∀ it : BillItem, repairItem (repairItem it) = repairItem it) ∧
    (∀ pages : List PageLineItems,
      repair_bill_items (repair_bill_items pages) = repair_bill_items pages) := by
  refine ⟨?_, repairItem_idem, ?_⟩
  · intro n
    show repairItem ⟨n, 0, 50, 2⟩ = ⟨n, 100, 50, 2⟩
    unfold repairItem
    dsimp only
    rw [if_pos (by norm_num), round2_fifty_times_two]
  · intro pages
    simp [repair_bill_items, List.map_map, Function.comp, repairItem_idem]

/-- C6: the repair of an item never touches the name, preserves at least two
of the three numeric fields (so at most one is modified), and leaves an item
with two or more zero fields among quantity, rate and amount fully
unchanged. -/
theorem C6_repair_frame : ∀ it : BillItem,
    (repairItem it).item_name = it.item_name ∧
    (((repairItem it).item_quantity = it.item_quantity ∧
      (repairItem it).item_rate = it.item_rate) ∨
     ((repairItem it).item_quantity = it.item_quantity ∧
      (repairItem it).item_amount = it.item_amount) ∨
     ((repairItem it).item_rate = it.item_rate ∧
      (repairItem it).item_amount = it.item_amount)) ∧
    (((it.item_quantity = 0 ∧ it.item_rate = 0) ∨
      (it.item_quantity = 0 ∧ it.item_amount = 0) ∨
      (it.item_rate = 0 ∧ it.item_amount = 0)) → repairItem it = it) := by
  intro it
  rcases it with ⟨n, a, r, q⟩
  unfold repairItem
  dsimp only
  refine ⟨?_, ?_, ?_⟩
  · split_ifs <;> rfl
  · split_ifs <;> simp
  · rintro (⟨hq, hr⟩ | ⟨hq, ha⟩ | ⟨hr, ha⟩) <;>
      (split_ifs <;> first
        | rfl
        | (exfalso; simp_all))

/-- C6 witness: `C6_repair_frame` applied to an underdetermined item with
two zero fields, which the repair pass leaves unchanged. -/
theorem C6_repair_frame_witness :
    repairItem ⟨['a'], 0, 0, 5⟩ = ⟨['a'], 0, 0, 5⟩ :=
  (C6_repair_frame ⟨['a'], 0, 0, 5⟩).2.2 (Or.inr (Or.inr ⟨rfl, rfl⟩))

/-- Membership in an insertion is membership in the inserted element or the
old list. -/
theorem mem_insertPage {b x : PageLineItems} {l : List PageLineItems} :
    b ∈ insertPage x l ↔ b = x ∨ b ∈ l := by
  induction l with
  | nil => simp [insertPage]
  | cons y ys ih =>
    unfold insertPage
    split_ifs with h
    · simp only [List.mem_cons, ih]
      try tauto
    · simp only [List.mem_cons]
      try tauto

/-- Insertion preserves sortedness by the page key. -/
theorem pairwise_insertPage {x : PageLineItems} {l : List PageLineItems}
    (h : l.Pairwise (fun a b => pageKey a ≤ pageKey b)) :
    (insertPage x l).Pairwise (fun a b => pageKey a ≤ pageKey b) := by
  induction l with
  | nil => simp [insertPage]
  | cons y ys ih =>
    rcases List.pairwise_cons.mp h with ⟨hy, hys⟩
    unfold insertPage
    split_ifs with hk
    · refine List.pairwise_cons.mpr ⟨?_, ih hys⟩
      intro b hb
      rcases mem_insertPage.mp hb with rfl | hb
      · exact le_of_lt hk
      · exact hy b hb
    · refine List.pairwise_cons.mpr ⟨?_, h⟩
      intro b hb
      rcases List.mem_cons.mp hb with rfl | hb
      · exact le_of_not_lt hk
      · exact le_trans (le_of_not_lt hk) (hy b hb)

/-- Insertion is a permutation of consing. -/
theorem perm_insertPage (x : PageLineItems) (l : List PageLineItems) :
    (insertPage x l).Perm (x :: l) := by
  induction l with
  | nil => simp [insertPage]
  | cons y ys ih =>
    unfold insertPage
    split_ifs with hk
    · exact ((ih.cons y).trans (List.Perm.swap x y ys))
    · exact List.Perm.refl _

/-- Key-class filtering commutes with insertion: the pages of any fixed key
keep their relative order. -/
theorem filter_insertPage (x : PageLineItems) (l : List PageLineItems) (k : Nat) :
    (insertPage x l).filter (fun p => pageKey p == k) =
      (x :: l).filter (fun p => pageKey p == k) := by
  induction l with
  | nil => rfl
  | cons y ys ih =>
    unfold insertPage
    split_ifs with hk
    · by_cases hxk : pageKey x = k
      · have hyk : (pageKey y == k) = false := by
          simp only [beq_eq_false_iff_ne, ne_eq]
          omega
        simp only [List.filter_cons, hyk]
        rw [ih]
        simp only [List.filter_cons]
        simp [hxk, hyk]
      · have hxk2 : (pageKey x == k) = false := by simpa using hxk
        simp only [List.filter_cons, hxk2] at *
        cases hyy : (pageKey y == k) <;> simp [hyy, ih, hxk2]
    · rfl

/-- Sorting is a permutation of the input. -/
theorem perm_sortPages (l : List PageLineItems) : (sortPages l).Perm l := by
  induction l with
  | nil => exact List.Perm.refl _
  | cons x xs ih => exact (perm_insertPage x (sortPages xs)).trans (ih.cons x)

/-- C9: the aggregation sort is ascending by the integer page key (a page
number that is not a digit string counts as 0), it is stable (every key class
keeps its input order), it permutes the input, and the two examples of the
claim hold: pages 3,1,2 come out 1,2,3 and a page numbered with the letter x
sorts before page 1. -/
theorem C9_sort_pages :
    (∀ l : List PageLineItems,
      (sortPages l).Pairwise (fun a b => pageKey a ≤ pageKey b)) ∧
    (∀ (l : List PageLineItems) (k : Nat),
      (sortPages l).filter (fun p => pageKey p == k) =
        l.filter (fun p => pageKey p == k)) ∧
    (∀ l : List PageLineItems, (sortPages l).Perm l) ∧
    sortPages [⟨"3".toList, .BILL_DETAIL, []⟩, ⟨"1".toList, .BILL_DETAIL, []⟩,
        ⟨"2".toList, .BILL_DETAIL, []⟩] =
      [⟨"1".toList, .BILL_DETAIL, []⟩, ⟨"2".toList, .BILL_DETAIL, []⟩,
        ⟨"3".toList, .BILL_DETAIL, []⟩] ∧
    sortPages [⟨"1".toList, .BILL_DETAIL, []⟩, ⟨"x".toList, .BILL_DETAIL, []⟩] =
      [⟨"x".toList, .BILL_DETAIL, []⟩, ⟨"1".toList, .BILL_DETAIL, []⟩] ∧
    pageKey ⟨"x".toList, .BILL_DETAIL, []⟩ = 0 ∧
    pageKey ⟨"12".toList, .BILL_DETAIL, []⟩ = 12 := by
  refine ⟨?_, ?_, perm_sortPages, by decide, by decide, by decide, by decide⟩
  · intro l
    induction l with
    | nil => simp [sortPages]
    | cons x xs ih => exact pairwise_insertPage ih
  · intro l k
    induction l with
    | nil => rfl
    | cons x xs ih =>
      show (insertPage x (sortPages xs)).filter _ = _
      rw [filter_insertPage]
      simp only [List.filter_cons]
      rw [ih]

/-- Pages processed from a start index are exactly the indexed map of the
input list. -/
theorem extractFrom_eq (pages : List (List Str)) : ∀ idx : Nat,
    extractFrom idx pages =
      (List.range pages.length).map
        (fun i => processPage (idx + i) (pages.getD i [])) := by
  induction pages with
  | nil => intro idx; rfl
  | cons pg rest ih =>
    intro idx
    show processPage idx pg :: extractFrom (idx + 1) rest = _
    rw [ih (idx + 1)]
    simp only [List.length_cons, List.range_succ_eq_map, List.map_cons,
      List.map_map, List.getD_cons_zero, Nat.add_zero, Function.comp]
    refine congrArg (processPage idx pg :: ·) ?_
    refine List.map_congr_left fun i _ => ?_
    simp only [Function.comp_apply, Nat.succ_eq_add_one, List.getD_cons_succ]
    congr 1
    omega

/-- C10: the heuristic extractor returns one page per input page in input
order; page `i` (0-based) carries the decimal rendering of `i + 1` as its
page number, the Bill Detail type, and exactly the items of its kept lines.
A page all of whose lines are rejected is kept with an empty item list. -/
theorem C10_output_shape :
    (∀ pages : List (List Str),
      extract_pagewise_line_items pages =
        (List.range pages.length).map
          (fun i => processPage (1 + i) (pages.getD i []))) ∧
    (∀ (idx : Nat) (lines : List Str),
      (processPage idx lines).page_no = Nat.toDigits 10 idx ∧
      (processPage idx lines).page_type = PageTypeEnum.BILL_DETAIL ∧
      (processPage idx lines).bill_items = lines.filterMap parseLine) ∧
    Nat.toDigits 10 1 = "1".toList ∧
    Nat.toDigits 10 12 = "12".toList ∧
    extract_pagewise_line_items [[]] = [⟨"1".toList, .BILL_DETAIL, []⟩] ∧
    extract_pagewise_line_items [["Total: 100".toList]] =
      [⟨"1".toList, .BILL_DETAIL, []⟩] := by
  refine ⟨?_, ?_, by decide, by decide, by decide, by decide⟩
  · intro pages
    exact extractFrom_eq pages 1
  · intro idx lines
    exact ⟨rfl, rfl, rfl⟩

/-- Resolution with three or more numbers always lands in `threeCase` on the
last three tokens. -/
theorem computeQRA_append_three (rest : List ℚ) (c3 c2 a : ℚ) :
    computeQRA (rest ++ [c3, c2, a]) = some (threeCase c3 c2 a) := by
  unfold computeQRA
  have h : (rest ++ [c3, c2, a]).reverse = a :: c2 :: c3 :: rest.reverse := by simp
  rw [h]
  rfl

/-- Resolution with exactly two numbers is `twoCase`. -/
theorem computeQRA_two (c2 a : ℚ) : computeQRA [c2, a] = some (twoCase c2 a) := rfl

/-- Resolution with exactly one number: quantity 1, rate and amount equal to
the number. -/
theorem computeQRA_one (a : ℚ) : computeQRA [a] = some (1, a, a) := rfl

section

attribute [local semireducible] Rat.add Rat.mul Rat.inv Rat.sub Rat.ofScientific

/-- Concrete run of the full pipeline on the Paracetamol example line. -/
theorem paracetamol_eval :
    extract_pagewise_line_items [["Paracetamol 2 15.50 31.00".toList]] =
      [⟨"1".toList, .BILL_DETAIL,
        [⟨"Paracetamol".toList, 31, 31 / 2, 2⟩]⟩] := by decide

/-- C2 counterexample: on the line Widget 5 7.3 100 the multiplicative match
fails under both orderings, and the source fallback then takes the
THIRD-from-last token 5 as the quantity with rate 100 / 5 = 20, while the
fallback as the claim words it (secondary candidate 7.3 is not an integer,
nowhere near the amount) would discard the candidate and yield quantity 1 and
rate 100.  The two outcomes differ, refuting the claim at this input. -/
theorem C2_fallback_cex :
    ¬ |(5 : ℚ) * (73 / 10) - 100| < tol 100 ∧
    ¬ |(73 / 10 : ℚ) * 5 - 100| < tol 100 ∧
    threeCase 5 (73 / 10) 100 = (5, 20, 100) ∧
    fallbackPerSpec true (73 / 10) 100 = (1, 100, 100) ∧
    ((5 : ℚ), (20 : ℚ), (100 : ℚ)) ≠ ((1 : ℚ), (100 : ℚ), (100 : ℚ)) ∧
    parseLine "Widget 5 7.3 100".toList =
      some ⟨"Widget".toList, 100, 20, 5⟩ := by
  refine ⟨by decide, by decide, by decide, by decide, by decide, by decide⟩

/-- C7 counterexample: the line Medicine X 01/02/2023 1950 contains a
date-like substring and exactly one other numeric token, passes every noise
filter and the name check, yet yields NO item: the remaining token 1950 is a
bare integer in the 1900-2100 range, so the year filter discards it and the
line is rejected, where the claim promises an item with rate and amount
1950. -/
theorem C7_year_token_cex :
    containsSub "01/02/2023".toList "Medicine X 01/02/2023 1950".toList = true ∧
    removeDates "Medicine X 01/02/2023 1950".toList = "Medicine X  1950".toList ∧
    extractNums (removeDates "Medicine X 01/02/2023 1950".toList) =
      ["1950".toList] ∧
    is_header_or_meta "Medicine X 01/02/2023 1950".toList = false ∧
    pyStrip "Medicine X 01/02/2023 1950".toList ≠ [] ∧
    (pyStrip "Medicine X 01/02/2023 1950".toList).any Char.isDigit = true ∧
    5 ≤ (pyStrip "Medicine X 01/02/2023 1950".toList).length ∧
    cleanName "Medicine X 01/02/2023 1950".toList = "Medicine X".toList ∧
    parseLine "Medicine X 01/02/2023 1950".toList = none := by
  refine ⟨by decide, by decide, by decide, by decide, by decide, by decide,
    by decide, by decide, by decide⟩

end

/-- C1: with a third-from-last token present, the quantity-first ordering of
the multiplicative match is decided first and wins whenever its tolerance
test holds, assigning quantity, rate and amount positionally; and the
Paracetamol example line resolves to quantity 2, rate 15.5, amount 31. -/
theorem C1_multiplicative_match :
    (∀ (rest : List ℚ) (c3 c2 a : ℚ), |c3 * c2 - a| < tol a →
      computeQRA (rest ++ [c3, c2, a]) = some (c3, c2, a)) ∧
    extract_pagewise_line_items [["Paracetamol 2 15.50 31.00".toList]] =
      [⟨"1".toList, .BILL_DETAIL, [⟨"Paracetamol".toList, 31, 31 / 2, 2⟩]⟩] := by
  refine ⟨?_, paracetamol_eval⟩
  intro rest c3 c2 a h
  rw [computeQRA_append_three]
  unfold threeCase
  rw [if_pos h]

/-- C1 witness: the multiplicative clause of `C1_multiplicative_match` at the
numbers of the Paracetamol line. -/
theorem C1_multiplicative_match_witness :
    computeQRA [2, 31 / 2, 31] = some (2, 31 / 2, 31) := by
  have h : |(2 : ℚ) * (31 / 2) - 31| < tol 31 := by
    rw [show |(2 : ℚ) * (31 / 2) - 31| = 0 by norm_num]
    exact lt_max_of_lt_left one_pos
  exact C1_multiplicative_match.1 [] 2 (31 / 2) 31 h

/-- C2 amended: when the multiplicative match fails, the source fallback with
three or more tokens inspects the THIRD-from-last token, not the
second-to-last: an integral third-from-last of at most 100 becomes the
quantity with rate amount divided by quantity (amount itself when the
quantity is 0), anything else gives quantity 1 and rate equal to amount, and
no within-0.1 rate test is made.  Only the two-token case treats the
second-to-last as the claim describes, with bound 50. -/
theorem C2_fallback_amended :
    (∀ (rest : List ℚ) (c3 c2 a : ℚ),
      ¬ |c3 * c2 - a| < tol a → ¬ |c2 * c3 - a| < tol a →
      computeQRA (rest ++ [c3, c2, a]) =
        some (if c3 ≤ 100 ∧ c3.den = 1 then (c3, if 0 < c3 then a / c3 else a, a)
              else (1, a, a))) ∧
    (∀ c2 a : ℚ,
      computeQRA [c2, a] =
        some (if c2 ≤ 50 ∧ c2.den = 1 then (c2, if 0 < c2 then a / c2 else a, a)
              else if |c2 - a| < 1 / 10 then (1, c2, a)
              else (1, a, a))) := by
  constructor
  · intro rest c3 c2 a h1 h2
    rw [computeQRA_append_three]
    unfold threeCase
    rw [if_neg h1, if_neg h2]
  · intro c2 a
    rw [computeQRA_two]
    rfl

/-- C2 amended witness: the three-token fallback clause of
`C2_fallback_amended` at the numbers of the Widget counterexample line. -/
theorem C2_fallback_amended_witness :
    computeQRA [5, 73 / 10, 100] = some (5, 100 / 5, 100) := by
  have h1 : ¬ |(5 : ℚ) * (73 / 10) - 100| < tol 100 := by
    rw [show |(5 : ℚ) * (73 / 10) - 100| = 127 / 2 by norm_num]
    rw [show tol 100 = 5 by rw [tol]; norm_num]
    norm_num
  have h2 : ¬ |(73 / 10 : ℚ) * 5 - 100| < tol 100 := by
    rw [show |(73 / 10 : ℚ) * 5 - 100| = 127 / 2 by norm_num]
    rw [show tol 100 = 5 by rw [tol]; norm_num]
    norm_num
  have h := C2_fallback_amended.1 [] 5 (73 / 10) 100 h1 h2
  rw [if_pos (by norm_num : (5 : ℚ) ≤ 100 ∧ ((5 : ℚ)).den = 1)] at h
  rw [if_pos (by norm_num : (0 : ℚ) < 5)] at h
  exact h

/-- Every item returned by the line parser has passed the sanity checks. -/
theorem parseLine_sanity {l : Str} {it : BillItem} (h : parseLine l = some it) :
    0 < it.item_amount ∧ 0 < it.item_quantity ∧ it.item_quantity ≤ 1000 := by
  unfold parseLine at h
  dsimp only at h
  rcases hq : computeQRA (extractNumbers (removeDates l)) with _ | ⟨q, r, a⟩ <;>
    rw [hq] at h
  · split_ifs at h
  · dsimp only at h
    split_ifs at h with h1 h2 h3 h4 g1 g2 g3
    rw [Option.some_inj] at h
    subst h
    exact ⟨lt_of_not_le g2, g1.1, g1.2⟩

/-- Every page produced by the extraction worker carries the items of some
input line list. -/
theorem mem_extractFrom {p : PageLineItems} :
    ∀ {idx : Nat} {pages : List (List Str)}, p ∈ extractFrom idx pages →
      ∃ lines : List Str, p.bill_items = lines.filterMap parseLine := by
  intro idx pages
  induction pages generalizing idx with
  | nil => intro h; simp [extractFrom] at h
  | cons pg rest ih =>
    intro h
    rcases List.mem_cons.mp h with rfl | h
    · exact ⟨pg, rfl⟩
    · exact ih h

/-- C3: every emitted item satisfies a positive amount and a quantity in
(0, 1000]; moreover a line whose resolved quantity leaves that interval or
whose resolved amount is nonpositive produces no item at all. -/
theorem C3_sanity_bounds :
    (∀ (pages : List (List Str)) (p : PageLineItems) (it : BillItem),
      p ∈ extract_pagewise_line_items pages → it ∈ p.bill_items →
      0 < it.item_amount ∧ 0 < it.item_quantity ∧ it.item_quantity ≤ 1000) ∧
    (∀ (line : Str) (q r a : ℚ),
      computeQRA (extractNumbers (removeDates line)) = some (q, r, a) →
      (¬(0 < q ∧ q ≤ 1000) ∨ a ≤ 0) → parseLine line = none) := by
  constructor
  · intro pages p it hp hit
    obtain ⟨lines, hl⟩ := mem_extractFrom hp
    rw [hl] at hit
    obtain ⟨l, _, hparse⟩ := List.mem_filterMap.mp hit
    exact parseLine_sanity hparse
  · intro line q r a hq hbad
    unfold parseLine
    dsimp only
    rw [hq]
    dsimp only
    split_ifs with h1 h2 h3 h4 g1 g2 g3 <;> try rfl
    exfalso
    rcases hbad with hb | hb
    · exact hb g1
    · exact g2 hb

section

attribute [local semireducible] Rat.add Rat.mul Rat.inv Rat.sub Rat.ofScientific

/-- C3 witness: `C3_sanity_bounds` applied to the single page and item of the
Paracetamol run, and to a line whose only number is zero. -/
theorem C3_sanity_bounds_witness :
    (0 < (31 : ℚ) ∧ 0 < (2 : ℚ) ∧ (2 : ℚ) ≤ 1000) ∧
    parseLine "Gauze pads 0.00".toList = none := by
  constructor
  · exact C3_sanity_bounds.1 [["Paracetamol 2 15.50 31.00".toList]]
      ⟨"1".toList, .BILL_DETAIL, [⟨"Paracetamol".toList, 31, 31 / 2, 2⟩]⟩
      ⟨"Paracetamol".toList, 31, 31 / 2, 2⟩
      (by rw [paracetamol_eval]; exact List.mem_singleton.mpr rfl)
      (List.mem_singleton.mpr rfl)
  · exact C3_sanity_bounds.2 "Gauze pads 0.00".toList 1 0 0 (by decide)
      (Or.inr le_rfl)

end

/-- C7 amended: for a kept line from which date removal leaves exactly one
numeric value, that value being positive (and in particular not discarded by
the year filter, which would leave no value at all), the parser returns a
single item with quantity 1 and rate and amount equal to that value; no digit
of the removed date reaches any numeric field. -/
theorem C7_date_single_number :
    ∀ (line : Str) (v : ℚ),
      removeDates line ≠ line →
      pyStrip line ≠ [] →
      is_header_or_meta line = false →
      (pyStrip line).any Char.isDigit = true →
      5 ≤ (pyStrip line).length →
      extractNumbers (removeDates line) = [v] →
      0 < v →
      3 ≤ (cleanName line).length →
      parseLine line = some ⟨cleanName line, v, v, 1⟩ := by
  intro line v hdate hstrip hmeta hdig hlen hnums hv hname
  unfold parseLine
  dsimp only
  rw [hnums, computeQRA_one]
  dsimp only
  rw [if_neg (by rintro (rfl | h) <;> exact hstrip (by first | rfl | exact h))]
  rw [if_neg (by simp [hmeta])]
  rw [if_neg (by simp [hdig])]
  rw [if_neg (by omega)]
  rw [if_neg (by norm_num)]
  rw [if_neg (by exact not_le.mpr hv)]
  rw [if_neg (by rintro (hn | hn) <;> [(rw [hn] at hname; simp at hname); omega])]

section

attribute [local semireducible] Rat.add Rat.mul Rat.inv Rat.sub Rat.ofScientific

/-- C7 witness: `C7_date_single_number` applied to a dated line whose only
other number is 45.50. -/
theorem C7_date_single_number_witness :
    parseLine "Tablet 01/02/2023 45.50".toList =
      some ⟨"Tablet".toList, 91 / 2, 91 / 2, 1⟩ := by
  have h := C7_date_single_number "Tablet 01/02/2023 45.50".toList (91 / 2)
    (by decide) (by decide) (by decide) (by decide) (by decide) (by decide)
    (by norm_num) (by decide)
  exact h

end

end BillSpec
